import Mathlib

/-!
# Verification of the chroma-tokenizer server (`tokenizer_server.py`)

Shallow embedding of the Flask tokenizer server's request handlers and
startup logic, followed by theorems settling the spec claims.

Conventions of the embedding:
* Python strings are Lean `String`s; character-level indexing (Python `len`,
  `str.find`) is done on `String.data : List Char`.
* Python `None`-able attributes (e.g. `tokenizer.bos_token`) are `Option`s.
* Python `int`s used as list indices are `Int` (negative indexing is modelled
  by `pyGet`).
* The pretrained tokenizer and model are external library objects; they are
  abstracted as records of functions.  Real-valued tensors (logits) are
  functions into `ℝ`; `torch.softmax` and `torch.topk` are defined below from
  their mathematical meaning.
* A handler that raises an exception is modelled with an error result
  (the Flask endpoints catch exceptions and answer HTTP 500).
-/

namespace ChromaTokenizer

/-- Python `list[i]` with Python semantics: negative indices count from the
end; an index out of range gives `none` (an `IndexError` in Python). -/
def pyGet {α : Type} (l : List α) (i : Int) : Option α :=
  let j : Int := if i < 0 then i + l.length else i
  if 0 ≤ j then l.get? j.toNat else none

/-! ## Display tokenization (`tokenize_display`, lines 114–164)

The abstract multilingual/MLM tokenizer used for display.  `tokenizeFn` is
`mlm_tokenizer.tokenize`, `tokToId` is the per-token vocabulary lookup that
`convert_tokens_to_ids` applies to each token, `convertTokensToString` is
`convert_tokens_to_string`. -/

structure DisplayTokenizer where
  tokenizeFn : String → List String
  tokToId : String → Nat
  convertTokensToString : List String → String

/-- Line 137: `token.replace('Ġ', '').replace('▁', '')`.  Replacing a
single-character pattern by the empty string removes every occurrence of
that character, i.e. filters it out of the character sequence. -/
def cleanToken (t : String) : String :=
  ⟨t.data.filter fun c => !(c == 'Ġ' || c == '▁')⟩

/-- `needle` occurs at the head of `hay`. -/
def matchesAt (hay needle : List Char) : Bool :=
  needle == hay.take needle.length

/-- Python `str.find(needle, start)` on character lists: the least index
`i ≥ start` at which `needle` occurs, `none` when there is none (Python
returns `-1` there). -/
def findChars (hay needle : List Char) (start : Nat) : Option Nat :=
  (List.range (hay.length + 1)).find? fun i =>
    decide (start ≤ i) && matchesAt (hay.drop i) needle

/-- One entry of the `token_positions` list (lines 142–148).  The source's
`start`/`end` keys are `start`/`stop` here (`end` is a Lean keyword). -/
structure TokenPos where
  token : String
  token_id : Nat
  start : Nat
  stop : Nat
  original_token : String
  deriving Repr, DecidableEq

/-- The alignment loop of `tokenize_display` (lines 132–149): scan the
reconstructed text forward from `cur`, skipping tokens whose cleaned form is
empty (without moving the cursor) and tokens the scan cannot find. -/
def alignTokens (reconstructed : List Char) :
    List (String × Nat) → Nat → List TokenPos
  | [], _ => []
  | (tok, tid) :: rest, cur =>
    let clean := (cleanToken tok).data
    if clean = [] then
      alignTokens reconstructed rest cur
    else
      match findChars reconstructed clean cur with
      | some s =>
          { token := clean.asString, token_id := tid, start := s,
            stop := s + clean.length, original_token := tok } ::
            alignTokens reconstructed rest (s + clean.length)
      | none => alignTokens reconstructed rest cur

/-- The JSON body of a successful `tokenize_display` response
(lines 151–160).  The source's `match` key is `matched` here (`match` and
`matches` are Lean keywords). -/
structure TDResponse where
  success : Bool
  text : String
  reconstructed : String
  matched : Bool
  token_count : Nat
  token_positions : List TokenPos
  original_tokens : List String
  word_level : Bool
  deriving Repr, DecidableEq

/-- Outcome of an HTTP handler: an error status with an `error` body field,
or a success body. -/
inductive TDResult where
  | err (code : Nat) (msg : String)
  | ok (resp : TDResponse)
  deriving Repr, DecidableEq

/-- The `/tokenize_display` handler (lines 114–164).  `textOpt` is the
request's `text` field (`none` when missing; `data.get('text','')` then
yields `""`).  The handler touches the tokenizer only after the empty-text
check. -/
def tokenize_display (tk : DisplayTokenizer) (textOpt : Option String) :
    TDResult :=
  let text := textOpt.getD ""
  if text = "" then .err 400 "No text provided"
  else
    let tokens := tk.tokenizeFn text
    let token_ids := tokens.map tk.tokToId
    let reconstructed := tk.convertTokensToString tokens
    let token_positions := alignTokens reconstructed.data (tokens.zip token_ids) 0
    .ok { success := true
          text := text
          reconstructed := reconstructed
          matched := text.trim == reconstructed.trim
          token_count := token_positions.length
          token_positions := token_positions
          original_tokens := tokens
          word_level := false }

/-! ## Model loading (`load_models`, lines 29–92)

The loading of each checkpoint either succeeds or throws; the four Boolean
fields record those outcomes.  The function returns the final global state
(which handle each global holds, identified by checkpoint name) and the
Boolean the Python function returns. -/

structure LoadOutcomes where
  jinaTok : Bool
  roberta : Bool
  distilbert : Bool
  jinaEmbed : Bool
  deriving Repr, DecidableEq

structure ModelState where
  tokenizer : Option String
  mlm_model : Option String
  mlm_tokenizer : Option String
  embedding_model : Option String
  deriving Repr, DecidableEq

/-- `load_models` (lines 29–92): try Jina (failure tolerated, lines 37–43);
load RoBERTa, falling back to DistilBERT, and `return False` when both fail
(lines 46–61); reuse the MLM tokenizer when Jina is absent (lines 64–66);
try the Jina embedding model only when the Jina tokenizer loaded
(lines 69–78). -/
def load_models (o : LoadOutcomes) : ModelState × Bool :=
  let jina_loaded := o.jinaTok
  let tok0 : Option String :=
    if o.jinaTok then some "jinaai/jina-embeddings-v4" else none
  match (if o.roberta then some "roberta-base"
         else if o.distilbert then some "distilbert-base-cased"
         else none) with
  | none =>
      ({ tokenizer := tok0, mlm_model := none, mlm_tokenizer := none,
         embedding_model := none }, false)
  | some mlmName =>
      let tok1 := if jina_loaded then tok0 else some mlmName
      let emb : Option String :=
        if jina_loaded && o.jinaEmbed then some "jinaai/jina-embeddings-v4"
        else none
      ({ tokenizer := tok1, mlm_model := some mlmName,
         mlm_tokenizer := some mlmName, embedding_model := emb }, true)

/-! ## Language selector

Modelled from the spec: the Language Selector (`select`) of §4.2 is not
among the provided server sources (only the per-language registry design it
serves is described); `select` is reproduced from the spec's words: texts
shorter than 3 characters bypass detection and return the fallback key;
otherwise a detection heuristic runs, and failures or unregistered languages
fall back. -/

/-- Modelled from the spec: `select(text) -> languageKey` (§4.2). -/
def select (detect : String → Option String) (registry : List String)
    (fallback : String) (text : String) : String :=
  if text.length < 3 then fallback
  else
    match detect text with
    | none => fallback
    | some lang => if registry.contains lang then lang else fallback

/-! ## Masked prediction (`predict_tokens`, lines 166–246, and
`predict_context`, lines 248–328)

The MLM tokenizer is abstracted as a record (`tokenizeFn` is `tokenize`,
`tokToId` the per-token lookup of `convert_tokens_to_ids`, `idToTok` the
per-id lookup of `convert_ids_to_tokens`, `decodeFn` is `decode([id])`,
`encode` the full `mlm_tokenizer(text)` call).  Special-token attributes
are `Option`s, `none` standing for Python `None` (an attribute a checkpoint
does not define).  The model is a function from an input id sequence to
per-position, per-vocabulary-id logits in `ℝ`; tensor indexing beyond the
sequence length is abstracted as a total function. -/

structure MLMTok where
  tokenizeFn : String → List String
  tokToId : String → Nat
  idToTok : Nat → String
  decodeFn : Nat → String
  convertTokensToString : List String → String
  encode : String → List Nat
  bos_token : Option String
  eos_token : Option String
  cls_token : Option String
  sep_token : Option String
  mask_token : String
  bos_token_id : Option Nat
  eos_token_id : Option Nat
  mask_token_id : Nat

structure MLMModel where
  vocabSize : Nat
  logits : List Nat → Nat → Nat → ℝ

/-- `torch.softmax(v, dim=0)[i]` for a logit vector `v = (f 0, …, f (V-1))`:
`exp (f i)` normalised by the sum of exponentials over the vocabulary. -/
noncomputable def softmaxAt (f : Nat → ℝ) (V i : Nat) : ℝ :=
  Real.exp (f i) / ∑ j ∈ Finset.range V, Real.exp (f j)

/-- Ordering used to model `torch.topk`: index `i` comes before `j` when its
value is strictly larger, ties resolved by index order. -/
noncomputable def logitDescBefore (f : Nat → ℝ) (i j : Nat) : Bool :=
  @decide (f j < f i ∨ (f i = f j ∧ i ≤ j)) (Classical.propDecidable _)

/-- `torch.topk(v, k).indices` for `v = (f 0, …, f (V-1))`: the indices of
the `k` largest entries, in descending value order.  (`torch.topk` requires
`k ≤ V`; theorems below carry that assumption.) -/
noncomputable def topkIndices (f : Nat → ℝ) (V k : Nat) : List Nat :=
  ((List.range V).mergeSort (logitDescBefore f)).take k

/-- Lines 183: `[mlm_tokenizer.bos_token] + tokens + [mlm_tokenizer.eos_token]`
— the marked token sequence, built from the `bos`/`eos` pair
unconditionally. -/
def markedTokens (t : MLMTok) (tokens : List String) : List (Option String) :=
  t.bos_token :: tokens.map some ++ [t.eos_token]

/-- Line 184: the marked id sequence, built from `bos_token_id`/`eos_token_id`
unconditionally. -/
def markedIds (t : MLMTok) (ids : List Nat) : List (Option Nat) :=
  t.bos_token_id :: ids.map some ++ [t.eos_token_id]

/-- Line 187: `[pos + 1 for pos in masked_positions]`. -/
def adjustedPositions (ps : List Int) : List Int := ps.map (· + 1)

/-- The marked-sequence construction as claim C2 words it (from the spec):
use the begin/end-of-sequence pair when the tokenizer exposes it, otherwise
the classification/separator pair.  To be compared with `markedTokens`,
which is what the source does. -/
def specMarkedTokens (t : MLMTok) (tokens : List String) :
    List (Option String) :=
  if t.bos_token.isSome ∧ t.eos_token.isSome then
    t.bos_token :: tokens.map some ++ [t.eos_token]
  else
    t.cls_token :: tokens.map some ++ [t.sep_token]

/-- One candidate of a `predict_tokens` prediction entry (lines 224–228). -/
structure PredCandidate where
  token : String
  token_id : Nat
  probability : ℝ

/-- One `predict_tokens` result entry (lines 230–235). -/
structure PredEntry where
  position : Int
  original_token : String
  original_probability : ℝ
  predictions : List PredCandidate

/-- One iteration of the `predict_tokens` results loop (lines 207–235):
for a requested position `pos`, either skip it (`none`) when the adjusted
index is out of the marked sequence's bounds, build its entry, or raise an
`IndexError` when `token_ids[pos]`/`tokens[pos]` is out of range. -/
noncomputable def entryFor (t : MLMTok) (m : MLMModel) (tokens : List String)
    (token_ids : List Nat) (preds : Nat → Nat → ℝ) (nSpecial : Nat)
    (pos : Int) : Except String (Option PredEntry) :=
  let adjusted_pos : Int := pos + 1
  if 0 ≤ adjusted_pos ∧ adjusted_pos < (nSpecial : Int) then
    let position_logits := preds adjusted_pos.toNat
    let top_indices := topkIndices position_logits m.vocabSize 5
    match pyGet token_ids pos with
    | none => .error "IndexError"
    | some original_token_id =>
      let original_probability :=
        softmaxAt position_logits m.vocabSize original_token_id
      let predictions_list : List PredCandidate := top_indices.map fun idx =>
        ⟨t.idToTok idx, idx, softmaxAt position_logits m.vocabSize idx⟩
      match pyGet tokens pos with
      | none => .error "IndexError"
      | some otok =>
        .ok (some { position := pos, original_token := otok,
                    original_probability := original_probability,
                    predictions := predictions_list })
  else .ok none

/-- The `predict_tokens` results loop over the requested positions
(lines 206–235); an `IndexError` at any position aborts the whole request. -/
noncomputable def resultsFor (t : MLMTok) (m : MLMModel) (tokens : List String)
    (token_ids : List Nat) (preds : Nat → Nat → ℝ) (nSpecial : Nat) :
    List Int → Except String (List PredEntry)
  | [] => .ok []
  | pos :: rest =>
    match entryFor t m tokens token_ids preds nSpecial pos with
    | .error e => .error e
    | .ok none => resultsFor t m tokens token_ids preds nSpecial rest
    | .ok (some x) =>
      match resultsFor t m tokens token_ids preds nSpecial rest with
      | .error e => .error e
      | .ok tail => .ok (x :: tail)

/-- The masking loop (lines 193–196): substitute the mask id at every
adjusted position that lies inside the marked sequence. -/
def maskFold (maskId : Nat) (adjusted : List Int) (l : List (Option Nat)) :
    List (Option Nat) :=
  adjusted.foldl
    (fun acc p =>
      if 0 ≤ p ∧ p < (acc.length : Int) then acc.set p.toNat (some maskId)
      else acc)
    l

/-- Successful `predict_tokens` response body (lines 237–242). -/
structure PTResponse where
  success : Bool
  text : String
  original_tokens : List String
  predictions : List PredEntry

inductive PTResult where
  | err (code : Nat) (msg : String)
  | ok (resp : PTResponse)

/-- The `/predict_tokens` handler (lines 166–246).  The parallel
`masked_tokens` string list built at lines 190–195 is dead after the loop
and is not modelled; `torch.tensor` over a list still containing `None`
(a tokenizer without `bos`/`eos` ids) raises, answered as HTTP 500. -/
noncomputable def predict_tokens (t : MLMTok) (m : MLMModel)
    (textOpt : Option String) (masked_positions : List Int) : PTResult :=
  let text := textOpt.getD ""
  if text = "" then .err 400 "No text provided"
  else
    let tokens := t.tokenizeFn text
    let token_ids := tokens.map t.tokToId
    let tokens_with_special := markedTokens t tokens
    let token_ids_with_special := markedIds t token_ids
    let adjusted_positions := adjustedPositions masked_positions
    let masked_token_ids :=
      maskFold t.mask_token_id adjusted_positions token_ids_with_special
    match masked_token_ids.mapM id with
    | none => .err 500 "TypeError"
    | some input_ids =>
      let preds := m.logits input_ids
      match resultsFor t m tokens token_ids preds
          tokens_with_special.length masked_positions with
      | .error e => .err 500 e
      | .ok results =>
        .ok { success := true, text := text, original_tokens := tokens,
              predictions := results }

/-- One candidate of a `predict_context` prediction entry (lines 307–311). -/
structure PCCandidate where
  token : String
  probability : ℝ
  token_id : Nat

/-- One `predict_context` result entry (lines 313–317); `position` is the
caller's original position (`masked_positions[i]`). -/
structure PCEntry where
  position : Int
  original_token : String
  predictions : List PCCandidate

/-- One iteration of the `predict_context` results loop (lines 297–317).
`probs` is the already-softmaxed tensor `F.softmax(outputs.logits, dim=-1)`
(row per position); `origPos` the caller's position, checked and indexed at
its adjusted value. -/
noncomputable def contextEntryFor (t : MLMTok) (m : MLMModel)
    (tokens : List String) (probs : Nat → Nat → ℝ) (origPos : Int) :
    Option PCEntry :=
  let pos : Int := origPos + 1
  if 0 ≤ pos ∧ pos < (tokens.length : Int) then
    let tops := topkIndices (probs pos.toNat) m.vocabSize 3
    some { position := origPos
           original_token := tokens.getD pos.toNat ""
           predictions := tops.map fun idx =>
             ⟨t.decodeFn idx, probs pos.toNat idx, idx⟩ }
  else none

/-- Successful `predict_context` response body (lines 319–324). -/
structure PCResponse where
  success : Bool
  text : String
  masked_text : String
  predictions : List PCEntry

inductive PCResult where
  | err (code : Nat) (msg : String)
  | ok (resp : PCResponse)

/-- The `/predict_context` handler (lines 248–328): wrap the text in the
tokenizer's `cls`/`sep` strings (a `None` attribute makes `startswith`
raise a `TypeError`, answered as 500), tokenize, mask at adjusted
positions, re-encode the detokenized masked text, softmax the logits and
collect per-position entries. -/
noncomputable def predict_context (t : MLMTok) (m : MLMModel)
    (textOpt : Option String) (masked_positions : List Int) : PCResult :=
  let text := textOpt.getD ""
  if text = "" then .err 400 "No text provided"
  else
    match t.cls_token, t.sep_token with
    | some cls, some sep =>
      let text1 := if text.startsWith cls then text else cls ++ " " ++ text
      let text2 := if text1.endsWith sep then text1 else text1 ++ " " ++ sep
      let tokens := t.tokenizeFn text2
      let adjusted_positions := masked_positions.map (· + 1)
      let masked_tokens := adjusted_positions.foldl
        (fun acc p =>
          if 0 ≤ p ∧ p < (acc.length : Int) then acc.set p.toNat t.mask_token
          else acc)
        tokens
      let masked_text := t.convertTokensToString masked_tokens
      let input_ids := t.encode masked_text
      let probs : Nat → Nat → ℝ := fun p idx =>
        softmaxAt (m.logits input_ids p) m.vocabSize idx
      let results := masked_positions.filterMap
        (contextEntryFor t m tokens probs)
      .ok { success := true, text := text2, masked_text := masked_text,
            predictions := results }
    | _, _ => .err 500 "TypeError"

/-! ## Concrete instances used to instantiate the theorems below -/

/-- A display tokenizer whose single token aligns at offset 1. -/
def cDispTok : DisplayTokenizer :=
  { tokenizeFn := fun _ => ["Ġa"], tokToId := fun _ => 7,
    convertTokensToString := fun _ => " a" }

/-- A display tokenizer whose single token has an empty cleaned form, so its
alignment is dropped. -/
def cDropTok : DisplayTokenizer :=
  { tokenizeFn := fun _ => ["Ġ"], tokToId := fun _ => 7,
    convertTokensToString := fun _ => "x" }

/-- A RoBERTa-shaped MLM tokenizer: `bos`/`eos` (and `cls`/`sep`) markers
present. -/
def cMLMTok : MLMTok :=
  { tokenizeFn := fun _ => ["Click"], tokToId := fun _ => 5,
    idToTok := fun _ => "tok", decodeFn := fun _ => "tok",
    convertTokensToString := fun l => String.join l, encode := fun _ => [],
    bos_token := some "<s>", eos_token := some "</s>",
    cls_token := some "<s>", sep_token := some "</s>", mask_token := "<mask>",
    bos_token_id := some 0, eos_token_id := some 2, mask_token_id := 50264 }

/-- A DistilBERT-shaped MLM tokenizer: no `bos`/`eos` pair (the attributes
are Python `None`), only `cls`/`sep`.  `load_models` (lines 54–57) can put
such a tokenizer into `mlm_tokenizer`. -/
def distilbertLikeTok : MLMTok :=
  { cMLMTok with
    bos_token := none, eos_token := none,
    bos_token_id := none, eos_token_id := none,
    cls_token := some "[CLS]", sep_token := some "[SEP]",
    mask_token := "[MASK]", mask_token_id := 103 }

/-- A model with vocabulary size 8 and constant logits. -/
noncomputable def cModel : MLMModel := ⟨8, fun _ _ _ => 0⟩

/-- The entry `entryFor` yields at position 0 for `cMLMTok`, `cModel`,
tokens `["Click"]`, ids `[5]` and constant-zero logits. -/
noncomputable def cEntry : PredEntry :=
  ⟨0, "Click", softmaxAt (fun _ => 0) 8 5,
    (topkIndices (fun _ => (0 : ℝ)) 8 5).map fun idx =>
      ⟨"tok", idx, softmaxAt (fun _ => 0) 8 idx⟩⟩

/-- The entry `contextEntryFor` yields at position 0 for tokens
`["a", "b", "c"]` and constant-zero logits under `cModel`. -/
noncomputable def cCtxEntry : PCEntry :=
  ⟨0, "b",
    (topkIndices (fun idx => softmaxAt (fun _ => 0) 8 idx) 8 3).map fun idx =>
      ⟨"tok", softmaxAt (fun _ => 0) 8 idx, idx⟩⟩

/-! # Theorems -/

/-! ## Alignment lemmas -/

theorem findChars_some_spec {hay needle : List Char} {start s : Nat}
    (h : findChars hay needle start = some s) :
    start ≤ s ∧ s ≤ hay.length ∧ needle = (hay.drop s).take needle.length := by
  have hp := List.find?_some h
  have hm := List.mem_of_find?_eq_some h
  simp only [List.mem_range] at hm
  simp only [matchesAt, Bool.and_eq_true, decide_eq_true_eq, beq_iff_eq] at hp
  exact ⟨hp.1, by omega, hp.2⟩

theorem matchesAt_fit {hay needle : List Char} {s : Nat}
    (hs : s ≤ hay.length) (h : needle = (hay.drop s).take needle.length) :
    s + needle.length ≤ hay.length := by
  have hlen := congrArg List.length h
  simp only [List.length_take, List.length_drop] at hlen
  have hmin := min_le_right needle.length (hay.length - s)
  rw [← hlen] at hmin
  omega

theorem alignTokens_mem_spans (rec : List Char) (toks : List (String × Nat)) :
    ∀ (cur : Nat) (tp : TokenPos), tp ∈ alignTokens rec toks cur →
      cur ≤ tp.start ∧ tp.start < tp.stop ∧ tp.stop ≤ rec.length := by
  induction toks with
  | nil => intro cur tp h; simp [alignTokens] at h
  | cons hd rest ih =>
    intro cur tp h
    obtain ⟨tok, tid⟩ := hd
    rw [alignTokens] at h
    by_cases hc : (cleanToken tok).data = []
    · rw [if_pos hc] at h; exact ih cur tp h
    · rw [if_neg hc] at h
      cases hf : findChars rec (cleanToken tok).data cur with
      | none => rw [hf] at h; exact ih cur tp h
      | some s =>
        rw [hf] at h
        obtain ⟨h1, h2, h3⟩ := findChars_some_spec hf
        have hfit := matchesAt_fit h2 h3
        have hpos : 0 < (cleanToken tok).data.length := List.length_pos.mpr hc
        rcases List.mem_cons.mp h with rfl | hmem
        · exact ⟨h1, by show s < s + (cleanToken tok).data.length; omega, hfit⟩
        · obtain ⟨hr1, hr2, hr3⟩ := ih _ tp hmem
          exact ⟨by omega, hr2, hr3⟩

theorem alignTokens_chain (rec : List Char) (toks : List (String × Nat)) :
    ∀ cur : Nat,
      (alignTokens rec toks cur).Pairwise fun a b => a.stop ≤ b.start := by
  induction toks with
  | nil => intro cur; simp [alignTokens]
  | cons hd rest ih =>
    intro cur
    obtain ⟨tok, tid⟩ := hd
    rw [alignTokens]
    by_cases hc : (cleanToken tok).data = []
    · rw [if_pos hc]; exact ih cur
    · rw [if_neg hc]
      cases hf : findChars rec (cleanToken tok).data cur with
      | none => exact ih cur
      | some s =>
        refine List.Pairwise.cons (fun b hb => ?_) (ih _)
        have := alignTokens_mem_spans rec rest _ b hb
        simpa using this.1

theorem alignTokens_length_le (rec : List Char) (toks : List (String × Nat)) :
    ∀ cur : Nat, (alignTokens rec toks cur).length ≤ toks.length := by
  induction toks with
  | nil => intro cur; simp [alignTokens]
  | cons hd rest ih =>
    intro cur
    obtain ⟨tok, tid⟩ := hd
    rw [alignTokens]
    by_cases hc : (cleanToken tok).data = []
    · rw [if_pos hc]; exact (ih cur).trans (by simp)
    · rw [if_neg hc]
      cases findChars rec (cleanToken tok).data cur with
      | none => exact (ih cur).trans (by simp)
      | some s => simpa using ih (s + (cleanToken tok).data.length)

/-- C3: in display-token alignment, each cleaned token is located by a
forward scan from the previous end offset (the found index is never before
the cursor); a token whose cleaned form is empty is skipped without moving
the cursor; a token the scan cannot find is omitted without error. -/
theorem alignTokens_scan_behaviour (rec : List Char) (tok : String)
    (tid : Nat) (rest : List (String × Nat)) (cur : Nat) :
    ((cleanToken tok).data = [] →
      alignTokens rec ((tok, tid) :: rest) cur = alignTokens rec rest cur) ∧
    ((cleanToken tok).data ≠ [] →
      findChars rec (cleanToken tok).data cur = none →
      alignTokens rec ((tok, tid) :: rest) cur = alignTokens rec rest cur) ∧
    (∀ s, (cleanToken tok).data ≠ [] →
      findChars rec (cleanToken tok).data cur = some s →
      cur ≤ s ∧
      alignTokens rec ((tok, tid) :: rest) cur =
        ⟨(cleanToken tok).data.asString, tid, s,
          s + (cleanToken tok).data.length, tok⟩ ::
          alignTokens rec rest (s + (cleanToken tok).data.length)) := by
  refine ⟨fun hc => ?_, fun hc hf => ?_,
    fun s hc hf => ⟨(findChars_some_spec hf).1, ?_⟩⟩
  · rw [alignTokens, if_pos hc]
  · rw [alignTokens, if_neg hc, hf]
  · rw [alignTokens, if_neg hc, hf]

/-- Witness for C3: the skip-without-advancing case (`"Ġ"` cleans to
empty), the not-found case (`"z"` is not in `" a"`), and the found case
(`"Ġa"` cleans to `"a"`, found forward of the cursor at offset 1). -/
theorem alignTokens_scan_behaviour_witness :
    alignTokens " a".data [("Ġ", 1)] 0 = alignTokens " a".data [] 0 ∧
    alignTokens " a".data [("z", 2)] 0 = alignTokens " a".data [] 0 ∧
    (0 ≤ 1 ∧
      alignTokens " a".data [("Ġa", 3)] 0 =
        ⟨"a", 3, 1, 2, "Ġa"⟩ :: alignTokens " a".data [] 2) :=
  ⟨(alignTokens_scan_behaviour " a".data "Ġ" 1 [] 0).1 (by decide),
   (alignTokens_scan_behaviour " a".data "z" 2 [] 0).2.1 (by decide)
     (by decide),
   (alignTokens_scan_behaviour " a".data "Ġa" 3 [] 0).2.2 1 (by decide)
     (by decide)⟩

/-- C4: every span a successful `tokenize_display` response returns has
`0 ≤ start < end ≤ len(reconstructed)`, and the spans are pairwise
non-overlapping with non-decreasing start offsets. -/
theorem tokenize_display_spans_wellformed (tk : DisplayTokenizer)
    (textOpt : Option String) (resp : TDResponse)
    (h : tokenize_display tk textOpt = .ok resp) :
    (∀ tp ∈ resp.token_positions,
      0 ≤ tp.start ∧ tp.start < tp.stop ∧
        tp.stop ≤ resp.reconstructed.length) ∧
    resp.token_positions.Pairwise
      fun a b => a.stop ≤ b.start ∧ a.start ≤ b.start := by
  simp only [tokenize_display] at h
  split at h
  · exact absurd h (by simp)
  · injection h with h
    subst h
    constructor
    · intro tp hmem
      have := alignTokens_mem_spans _ _ 0 tp hmem
      exact ⟨Nat.zero_le _, this.2.1, this.2.2⟩
    · refine (alignTokens_chain _ _ 0).imp_of_mem fun {a b} ha hb hr => ?_
      have hsa := alignTokens_mem_spans _ _ 0 a ha
      exact ⟨hr, by omega⟩

/-- Witness for C4 at a concrete tokenizer and request. -/
theorem tokenize_display_spans_wellformed_witness :
    (∀ tp ∈ (TDResponse.mk true "b" " a"
        ("b".trim == " a".trim) 1 [⟨"a", 7, 1, 2, "Ġa"⟩] ["Ġa"]
        false).token_positions,
      0 ≤ tp.start ∧ tp.start < tp.stop ∧
        tp.stop ≤ (" a" : String).length) ∧
    ([⟨"a", 7, 1, 2, "Ġa"⟩] : List TokenPos).Pairwise
      fun a b => a.stop ≤ b.start ∧ a.start ≤ b.start :=
  tokenize_display_spans_wellformed cDispTok (some "b") _ rfl

/-- C9: in every successful `tokenize_display` response, `token_count`
equals the number of aligned spans in `token_positions`, which never
exceeds — and can be strictly smaller than — the number of raw tokens; the
raw token list is returned unchanged in `original_tokens`. -/
theorem tokenize_display_counts :
    (∀ (tk : DisplayTokenizer) (textOpt : Option String) (resp : TDResponse),
      tokenize_display tk textOpt = .ok resp →
      resp.token_count = resp.token_positions.length ∧
      resp.original_tokens = tk.tokenizeFn (textOpt.getD "") ∧
      resp.token_positions.length ≤ resp.original_tokens.length) ∧
    ∃ resp : TDResponse, tokenize_display cDropTok (some "x") = .ok resp ∧
      resp.token_positions.length < resp.original_tokens.length := by
  constructor
  · intro tk textOpt resp h
    simp only [tokenize_display] at h
    split at h
    · exact absurd h (by simp)
    · injection h with h
      subst h
      refine ⟨rfl, rfl, ?_⟩
      exact (alignTokens_length_le _ _ 0).trans (by simp)
  · exact ⟨⟨true, "x", "x", ("x".trim == "x".trim), 0, [], ["Ġ"], false⟩,
      rfl, by decide⟩

/-- Witness for C9's universally quantified part at a concrete request. -/
theorem tokenize_display_counts_witness :
    (TDResponse.mk true "b" " a" ("b".trim == " a".trim) 1
        [⟨"a", 7, 1, 2, "Ġa"⟩] ["Ġa"] false).token_count = 1 ∧
    (TDResponse.mk true "b" " a" ("b".trim == " a".trim) 1
        [⟨"a", 7, 1, 2, "Ġa"⟩] ["Ġa"] false).original_tokens = ["Ġa"] :=
  ⟨((tokenize_display_counts.1 cDispTok (some "b") _ rfl).1).symm ▸ rfl,
   (tokenize_display_counts.1 cDispTok (some "b") _ rfl).2.1⟩

/-! ## Masking and results-loop lemmas -/

theorem maskFold_cons (mid : Nat) (p : Int) (rest : List Int)
    (l : List (Option Nat)) :
    maskFold mid (p :: rest) l =
      maskFold mid rest
        (if 0 ≤ p ∧ p < (l.length : Int) then l.set p.toNat (some mid)
         else l) := rfl

theorem maskFold_length (mid : Nat) (ps : List Int) :
    ∀ l : List (Option Nat), (maskFold mid ps l).length = l.length := by
  induction ps with
  | nil => intro l; rfl
  | cons p rest ih =>
    intro l
    rw [maskFold_cons, ih]
    split <;> simp

theorem maskFold_append (mid : Nat) (ps qs : List Int)
    (l : List (Option Nat)) :
    maskFold mid (ps ++ qs) l = maskFold mid qs (maskFold mid ps l) :=
  List.foldl_append _ _ _ _

theorem maskFold_oob_mid (mid : Nat) (ps qs : List Int) (q : Int)
    (l : List (Option Nat)) (h : ¬(0 ≤ q ∧ q < (l.length : Int))) :
    maskFold mid (ps ++ q :: qs) l = maskFold mid (ps ++ qs) l := by
  rw [maskFold_append, maskFold_append, maskFold_cons]
  rw [if_neg (by rw [maskFold_length]; exact h)]

theorem maskFold_id_of_oob (mid : Nat) :
    ∀ (ps : List Int) (l : List (Option Nat)),
      (∀ p ∈ ps, ¬(0 ≤ p ∧ p < (l.length : Int))) → maskFold mid ps l = l := by
  intro ps
  induction ps with
  | nil => intro l _; rfl
  | cons p rest ih =>
    intro l h
    rw [maskFold_cons, if_neg (h p (by simp))]
    exact ih l fun q hq => h q (by simp [hq])

theorem mapM_id_map_some {α : Type} (l : List α) :
    List.mapM (m := Option) id (l.map some) = some l := by
  induction l with
  | nil => rfl
  | cons x xs ih => rw [List.map_cons, List.mapM_cons, ih]; rfl

theorem entryFor_oob (t : MLMTok) (m : MLMModel) (tokens : List String)
    (token_ids : List Nat) (preds : Nat → Nat → ℝ) (nSpecial : Nat)
    (pos : Int) (h : ¬(0 ≤ pos + 1 ∧ pos + 1 < (nSpecial : Int))) :
    entryFor t m tokens token_ids preds nSpecial pos = .ok none := by
  simp only [entryFor]
  rw [if_neg h]

theorem resultsFor_cons (t : MLMTok) (m : MLMModel) (tokens : List String)
    (token_ids : List Nat) (preds : Nat → Nat → ℝ) (nSpecial : Nat)
    (p : Int) (rest : List Int) :
    resultsFor t m tokens token_ids preds nSpecial (p :: rest) =
      match entryFor t m tokens token_ids preds nSpecial p with
      | .error e => .error e
      | .ok none => resultsFor t m tokens token_ids preds nSpecial rest
      | .ok (some x) =>
        match resultsFor t m tokens token_ids preds nSpecial rest with
        | .error e => .error e
        | .ok tail => .ok (x :: tail) := rfl

theorem resultsFor_oob_mid (t : MLMTok) (m : MLMModel) (tokens : List String)
    (token_ids : List Nat) (preds : Nat → Nat → ℝ) (nSpecial : Nat)
    (q : Int) (qs : List Int)
    (h : ¬(0 ≤ q + 1 ∧ q + 1 < (nSpecial : Int))) :
    ∀ ps : List Int,
      resultsFor t m tokens token_ids preds nSpecial (ps ++ q :: qs) =
        resultsFor t m tokens token_ids preds nSpecial (ps ++ qs) := by
  intro ps
  induction ps with
  | nil =>
    rw [List.nil_append, List.nil_append, resultsFor_cons,
      entryFor_oob t m tokens token_ids preds nSpecial q h]
  | cons x xs ih =>
    rw [List.cons_append, List.cons_append, resultsFor_cons, resultsFor_cons,
      ih]

theorem resultsFor_all_oob (t : MLMTok) (m : MLMModel) (tokens : List String)
    (token_ids : List Nat) (preds : Nat → Nat → ℝ) (nSpecial : Nat) :
    ∀ ps : List Int,
      (∀ p ∈ ps, ¬(0 ≤ p + 1 ∧ p + 1 < (nSpecial : Int))) →
      resultsFor t m tokens token_ids preds nSpecial ps = .ok [] := by
  intro ps
  induction ps with
  | nil => intro _; rfl
  | cons p rest ih =>
    intro h
    rw [resultsFor_cons, entryFor_oob t m tokens token_ids preds nSpecial p
      (h p (by simp))]
    exact ih fun q hq => h q (by simp [hq])

theorem markedIds_length (t : MLMTok) (ids : List Nat) :
    (markedIds t ids).length = ids.length + 2 := by
  simp [markedIds]

theorem markedTokens_length (t : MLMTok) (toks : List String) :
    (markedTokens t toks).length = toks.length + 2 := by
  simp [markedTokens]

/-- C2, counterexample: on a DistilBERT-shaped tokenizer (no `bos`/`eos`
pair, `cls`/`sep` present — a tokenizer `load_models` can install), the
marked sequence the code builds is not the one the claim's two-convention
rule prescribes: the code inserts the absent `bos`/`eos` attributes
(Python `None`) instead of switching to the `cls`/`sep` pair. -/
theorem markedTokens_ne_spec_on_distilbert :
    markedTokens distilbertLikeTok ["hello"] ≠
      specMarkedTokens distilbertLikeTok ["hello"] := by
  decide

/-- C2, amended: the marked sequence is always built by prepending the
tokenizer's `bos` marker and appending its `eos` marker (one marker on each
side, so the sequence is two longer); when the tokenizer exposes the
`bos`/`eos` pair this agrees with the claim's first convention, but a
`cls`/`sep`-only tokenizer is not handled by the second convention; the
offset 1 is added to every requested position. -/
theorem predict_tokens_marker_convention (t : MLMTok) (toks : List String) :
    markedTokens t toks = t.bos_token :: toks.map some ++ [t.eos_token] ∧
    (markedTokens t toks).length = toks.length + 2 ∧
    (t.bos_token.isSome ∧ t.eos_token.isSome →
      specMarkedTokens t toks = markedTokens t toks) ∧
    ∀ ps : List Int, adjustedPositions ps = ps.map (· + 1) := by
  refine ⟨rfl, ?_, fun h => ?_, fun ps => rfl⟩
  · simp [markedTokens]
  · simp [specMarkedTokens, markedTokens, h.1, h.2]

/-- Witness for C2's amended theorem at the RoBERTa-shaped tokenizer. -/
theorem predict_tokens_marker_convention_witness :
    specMarkedTokens cMLMTok ["Click"] = markedTokens cMLMTok ["Click"] :=
  (predict_tokens_marker_convention cMLMTok ["Click"]).2.2.1 (by decide)

/-- C1: a requested position whose adjusted index `pos + 1` falls outside
the marked sequence's bounds is skipped silently — removing it from the
request changes nothing (it contributes no prediction entry, no mask, and
no failure), and a non-empty-text request whose every position is out of
those bounds succeeds with an empty predictions list. -/
theorem predict_tokens_skips_oob :
    (∀ (t : MLMTok) (m : MLMModel) (textOpt : Option String)
        (ps₁ ps₂ : List Int) (p : Int),
        ¬(0 ≤ p + 1 ∧
            p + 1 < ((t.tokenizeFn (textOpt.getD "")).length : Int) + 2) →
        predict_tokens t m textOpt (ps₁ ++ p :: ps₂) =
          predict_tokens t m textOpt (ps₁ ++ ps₂)) ∧
    (∀ (t : MLMTok) (m : MLMModel) (text : String) (b e : Nat)
        (ps : List Int), text ≠ "" →
        t.bos_token_id = some b → t.eos_token_id = some e →
        (∀ p ∈ ps,
          ¬(0 ≤ p + 1 ∧ p + 1 < ((t.tokenizeFn text).length : Int) + 2)) →
        predict_tokens t m (some text) ps =
          .ok ⟨true, text, t.tokenizeFn text, []⟩) := by
  constructor
  · intro t m textOpt ps₁ ps₂ p hp
    by_cases ht : textOpt.getD "" = ""
    · simp [predict_tokens, ht]
    · simp only [predict_tokens, if_neg ht]
      have hmask : maskFold t.mask_token_id
          (adjustedPositions (ps₁ ++ p :: ps₂))
          (markedIds t ((t.tokenizeFn (textOpt.getD "")).map t.tokToId)) =
          maskFold t.mask_token_id (adjustedPositions (ps₁ ++ ps₂))
          (markedIds t ((t.tokenizeFn (textOpt.getD "")).map t.tokToId)) := by
        have h1 : adjustedPositions (ps₁ ++ p :: ps₂) =
            adjustedPositions ps₁ ++ (p + 1) :: adjustedPositions ps₂ := by
          simp [adjustedPositions]
        have h2 : adjustedPositions (ps₁ ++ ps₂) =
            adjustedPositions ps₁ ++ adjustedPositions ps₂ := by
          simp [adjustedPositions]
        rw [h1, h2]
        apply maskFold_oob_mid
        rw [markedIds_length, List.length_map]
        intro hcon
        exact hp ⟨hcon.1, by exact_mod_cast hcon.2⟩
      have hres : ∀ preds : Nat → Nat → ℝ,
          resultsFor t m (t.tokenizeFn (textOpt.getD ""))
            ((t.tokenizeFn (textOpt.getD "")).map t.tokToId) preds
            (markedTokens t (t.tokenizeFn (textOpt.getD ""))).length
            (ps₁ ++ p :: ps₂) =
          resultsFor t m (t.tokenizeFn (textOpt.getD ""))
            ((t.tokenizeFn (textOpt.getD "")).map t.tokToId) preds
            (markedTokens t (t.tokenizeFn (textOpt.getD ""))).length
            (ps₁ ++ ps₂) := by
        intro preds
        apply resultsFor_oob_mid
        rw [markedTokens_length]
        intro hcon
        exact hp ⟨hcon.1, by exact_mod_cast hcon.2⟩
      rw [hmask]
      simp only [hres]
  · intro t m text b e ps htext hb he hps
    simp only [predict_tokens, Option.getD_some, if_neg htext]
    have hmask : maskFold t.mask_token_id (adjustedPositions ps)
        (markedIds t ((t.tokenizeFn text).map t.tokToId)) =
        markedIds t ((t.tokenizeFn text).map t.tokToId) := by
      apply maskFold_id_of_oob
      intro q hq
      rw [adjustedPositions, List.mem_map] at hq
      obtain ⟨p0, hp0, rfl⟩ := hq
      rw [markedIds_length, List.length_map]
      intro hcon
      exact hps p0 hp0 ⟨hcon.1, by exact_mod_cast hcon.2⟩
    rw [hmask]
    have hmarked : markedIds t ((t.tokenizeFn text).map t.tokToId) =
        (b :: (t.tokenizeFn text).map t.tokToId ++ [e]).map some := by
      simp [markedIds, hb, he]
    rw [hmarked, mapM_id_map_some]
    have hres := resultsFor_all_oob t m (t.tokenizeFn text)
      ((t.tokenizeFn text).map t.tokToId)
      (m.logits (b :: (t.tokenizeFn text).map t.tokToId ++ [e]))
      (markedTokens t (t.tokenizeFn text)).length ps ?_
    · dsimp only
      rw [hres]
    · intro p0 hp0
      rw [markedTokens_length]
      intro hcon
      exact hps p0 hp0 ⟨hcon.1, by exact_mod_cast hcon.2⟩

/-- Witness for C1: on a one-token sentence, position 999 is dropped (same
outcome as not requesting it) and the all-out-of-range request answers
success with no predictions. -/
theorem predict_tokens_skips_oob_witness :
    predict_tokens cMLMTok cModel (some "hi") [999] =
      predict_tokens cMLMTok cModel (some "hi") [] ∧
    predict_tokens cMLMTok cModel (some "hi") [999] =
      .ok ⟨true, "hi", ["Click"], []⟩ :=
  ⟨predict_tokens_skips_oob.1 cMLMTok cModel (some "hi") [] [] 999 (by decide),
   predict_tokens_skips_oob.2 cMLMTok cModel "hi" 0 2 [999] (by decide) rfl rfl
     (by decide)⟩

theorem pyGet_neg_one {α : Type} (l : List α) (h : l ≠ []) :
    pyGet l (-1) = l.getLast? := by
  have hl : 0 < l.length := List.length_pos.mpr h
  have h0 : ((-1 : Int) < 0) := by norm_num
  have h1 : (0 : Int) ≤ -1 + l.length := by omega
  have h2 : ((-1 : Int) + l.length).toNat = l.length - 1 := by omega
  simp only [pyGet, if_pos h0, if_pos h1, h2]
  rw [List.get?_eq_getElem?, ← List.getLast?_eq_getElem?]

/-- C10: a masked-prediction request containing position `-1` is not
rejected: its adjusted index 0 passes the bounds check, so the prepended
begin-of-sequence marker is the token that gets masked (the model input is
the mask id followed by the unmarked ids and the end marker), and the
response contains an entry with position `-1` whose original token and
original probability are taken from the last token of the unmarked
sequence (Python index `-1`). -/
theorem predict_tokens_position_neg_one (t : MLMTok) (m : MLMModel)
    (text : String) (b e : Nat) (htext : text ≠ "")
    (hb : t.bos_token_id = some b) (he : t.eos_token_id = some e)
    (hne : t.tokenizeFn text ≠ []) :
    ∃ entry : PredEntry,
      predict_tokens t m (some text) [-1] =
        .ok ⟨true, text, t.tokenizeFn text, [entry]⟩ ∧
      entry.position = -1 ∧
      (t.tokenizeFn text).getLast? = some entry.original_token ∧
      ∃ oid : Nat,
        ((t.tokenizeFn text).map t.tokToId).getLast? = some oid ∧
        entry.original_probability =
          softmaxAt
            (m.logits
              (t.mask_token_id :: (t.tokenizeFn text).map t.tokToId ++ [e]) 0)
            m.vocabSize oid := by
  have hidsne : (t.tokenizeFn text).map t.tokToId ≠ [] := by
    simpa using hne
  obtain ⟨lt, hlt⟩ : ∃ lt, (t.tokenizeFn text).getLast? = some lt :=
    Option.isSome_iff_exists.mp (List.getLast?_isSome.mpr hne)
  obtain ⟨oid, hoid⟩ :
      ∃ oid, ((t.tokenizeFn text).map t.tokToId).getLast? = some oid :=
    Option.isSome_iff_exists.mp (List.getLast?_isSome.mpr hidsne)
  refine ⟨⟨-1, lt,
      softmaxAt
        (m.logits (t.mask_token_id :: (t.tokenizeFn text).map t.tokToId ++ [e]) 0)
        m.vocabSize oid,
      (topkIndices
        (m.logits (t.mask_token_id :: (t.tokenizeFn text).map t.tokToId ++ [e]) 0)
        m.vocabSize 5).map fun idx =>
          ⟨t.idToTok idx, idx,
            softmaxAt
              (m.logits
                (t.mask_token_id :: (t.tokenizeFn text).map t.tokToId ++ [e]) 0)
              m.vocabSize idx⟩⟩,
    ?_, rfl, by rw [hlt], oid, hoid, rfl⟩
  simp only [predict_tokens, Option.getD_some, if_neg htext]
  have hmask : maskFold t.mask_token_id (adjustedPositions [-1])
      (markedIds t ((t.tokenizeFn text).map t.tokToId)) =
      (t.mask_token_id :: (t.tokenizeFn text).map t.tokToId ++ [e]).map some := by
    have h1 : adjustedPositions [-1] = [0] := by
      simp [adjustedPositions]
    have hcond : (0 : Int) ≤ 0 ∧ (0 : Int) <
        ((markedIds t ((t.tokenizeFn text).map t.tokToId)).length : Int) := by
      refine ⟨le_refl _, ?_⟩
      rw [markedIds_length]
      omega
    rw [h1, maskFold_cons, if_pos hcond]
    show (markedIds t ((t.tokenizeFn text).map t.tokToId)).set 0
        (some t.mask_token_id) = _
    rw [markedIds, hb, he]
    simp
  rw [hmask, mapM_id_map_some]
  dsimp only
  have hentry : entryFor t m (t.tokenizeFn text)
      ((t.tokenizeFn text).map t.tokToId)
      (m.logits (t.mask_token_id :: (t.tokenizeFn text).map t.tokToId ++ [e]))
      (markedTokens t (t.tokenizeFn text)).length (-1) =
      .ok (some ⟨-1, lt,
        softmaxAt
          (m.logits
            (t.mask_token_id :: (t.tokenizeFn text).map t.tokToId ++ [e]) 0)
          m.vocabSize oid,
        (topkIndices
          (m.logits
            (t.mask_token_id :: (t.tokenizeFn text).map t.tokToId ++ [e]) 0)
          m.vocabSize 5).map fun idx =>
            ⟨t.idToTok idx, idx,
              softmaxAt
                (m.logits
                  (t.mask_token_id :: (t.tokenizeFn text).map t.tokToId ++ [e])
                  0)
                m.vocabSize idx⟩⟩) := by
    have hcond2 : (0 : Int) ≤ -1 + 1 ∧ (-1 : Int) + 1 <
        ((markedTokens t (t.tokenizeFn text)).length : Int) := by
      rw [markedTokens_length]
      omega
    simp only [entryFor, if_pos hcond2,
      pyGet_neg_one _ hidsne, hoid, pyGet_neg_one _ hne, hlt]
    norm_num
  rw [resultsFor_cons, hentry]
  rfl

/-- Witness for C10: the one-token sentence; the response carries the
`-1`-positioned entry built from the last unmarked token. -/
theorem predict_tokens_position_neg_one_witness :
    ∃ entry : PredEntry,
      predict_tokens cMLMTok cModel (some "hi") [-1] =
        .ok ⟨true, "hi", ["Click"], [entry]⟩ ∧
      entry.position = -1 ∧
      (["Click"] : List String).getLast? = some entry.original_token ∧
      ∃ oid : Nat, ([5] : List Nat).getLast? = some oid ∧
        entry.original_probability =
          softmaxAt (cModel.logits [50264, 5, 2] 0) cModel.vocabSize oid :=
  predict_tokens_position_neg_one cMLMTok cModel "hi" 0 2 (by decide) rfl rfl
    (by decide)

/-- C6: a `tokenize_display` request with a missing or empty `text` field
answers HTTP 400 with an `error` body, and the outcome does not depend on
the tokenizer at all (so no tokenizer and no model is consulted). -/
theorem tokenize_display_empty_text_400 (tk tk' : DisplayTokenizer) :
    tokenize_display tk none = .err 400 "No text provided" ∧
    tokenize_display tk (some "") = .err 400 "No text provided" ∧
    tokenize_display tk none = tokenize_display tk' none ∧
    tokenize_display tk (some "") = tokenize_display tk' (some "") :=
  ⟨rfl, rfl, rfl, rfl⟩

/-- C7, counterexample: with the Jina tokenizer loading successfully but
both MLM checkpoints failing, one registry entry has loaded (the global
`tokenizer` is set) yet `load_models` returns `False` — refuting "startup
succeeds whenever at least one entry has loaded". -/
theorem load_models_fails_despite_loaded_entry :
    (load_models ⟨true, false, false, true⟩).1.tokenizer.isSome = true ∧
    (load_models ⟨true, false, false, true⟩).2 = false := by
  decide

/-- C7, amended: startup reports failure exactly when no MLM checkpoint
loads — neither RoBERTa nor the DistilBERT fallback; a failure of the Jina
tokenizer or of the Jina embedding model alone never aborts startup. -/
theorem load_models_success_iff (o : LoadOutcomes) :
    (load_models o).2 = true ↔ o.roberta = true ∨ o.distilbert = true := by
  obtain ⟨j, r, d, e⟩ := o
  cases j <;> cases r <;> cases d <;> cases e <;> decide

/-! ## Softmax and top-k lemmas -/

theorem softmaxAt_nonneg (f : Nat → ℝ) (V i : Nat) : 0 ≤ softmaxAt f V i :=
  div_nonneg (Real.exp_pos _).le
    (Finset.sum_nonneg fun _ _ => (Real.exp_pos _).le)

theorem softmaxAt_le_one (f : Nat → ℝ) {V i : Nat} (h : i < V) :
    softmaxAt f V i ≤ 1 := by
  rw [softmaxAt, div_le_one
    (Finset.sum_pos (fun _ _ => Real.exp_pos _) ⟨i, Finset.mem_range.mpr h⟩)]
  exact Finset.single_le_sum (fun _ _ => (Real.exp_pos _).le)
    (Finset.mem_range.mpr h)

theorem softmaxAt_mono (f : Nat → ℝ) (V : Nat) {i j : Nat}
    (h : f i ≤ f j) : softmaxAt f V i ≤ softmaxAt f V j := by
  rcases Nat.eq_zero_or_pos V with hV | hV
  · subst hV; simp [softmaxAt]
  · have hsum : 0 < ∑ k ∈ Finset.range V, Real.exp (f k) :=
      Finset.sum_pos (fun _ _ => Real.exp_pos _)
        (Finset.nonempty_range_iff.mpr (Nat.pos_iff_ne_zero.mp hV))
    rw [softmaxAt, softmaxAt]
    exact (div_le_div_iff_of_pos_right hsum).mpr (Real.exp_le_exp.mpr h)

theorem logitDescBefore_iff (f : Nat → ℝ) (i j : Nat) :
    logitDescBefore f i j = true ↔ f j < f i ∨ (f i = f j ∧ i ≤ j) := by
  simp [logitDescBefore]

theorem logitDescBefore_trans (f : Nat → ℝ) (a b c : Nat)
    (h1 : logitDescBefore f a b) (h2 : logitDescBefore f b c) :
    logitDescBefore f a c := by
  rw [logitDescBefore_iff] at h1 h2 ⊢
  rcases h1 with h1 | ⟨h1e, h1i⟩ <;> rcases h2 with h2 | ⟨h2e, h2i⟩
  · exact Or.inl (h2.trans h1)
  · exact Or.inl (by rw [← h2e]; exact h1)
  · exact Or.inl (by rw [h1e]; exact h2)
  · exact Or.inr ⟨h1e.trans h2e, h1i.trans h2i⟩

theorem logitDescBefore_total (f : Nat → ℝ) (a b : Nat) :
    logitDescBefore f a b || logitDescBefore f b a := by
  rw [Bool.or_eq_true, logitDescBefore_iff, logitDescBefore_iff]
  rcases lt_trichotomy (f a) (f b) with h | h | h
  · exact Or.inr (Or.inl h)
  · rcases Nat.le_total a b with hab | hab
    · exact Or.inl (Or.inr ⟨h, hab⟩)
    · exact Or.inr (Or.inr ⟨h.symm, hab⟩)
  · exact Or.inl (Or.inl h)

theorem topkIndices_length (f : Nat → ℝ) {V k : Nat} (h : k ≤ V) :
    (topkIndices f V k).length = k := by
  simp only [topkIndices, List.length_take, List.length_mergeSort,
    List.length_range]
  omega

theorem topkIndices_lt (f : Nat → ℝ) (V k : Nat) :
    ∀ i ∈ topkIndices f V k, i < V := by
  intro i hi
  have h1 := List.take_subset _ _ hi
  rw [List.mem_mergeSort] at h1
  exact List.mem_range.mp h1

theorem topkIndices_sorted (f : Nat → ℝ) (V k : Nat) :
    (topkIndices f V k).Pairwise fun i j => f j ≤ f i := by
  have hs := List.sorted_mergeSort
    (fun a b c h1 h2 => logitDescBefore_trans f a b c h1 h2)
    (fun a b => logitDescBefore_total f a b) (List.range V)
  have hs2 : ((List.range V).mergeSort (logitDescBefore f)).Pairwise
      fun i j => f j ≤ f i := by
    refine hs.imp ?_
    intro a b hab
    rcases (logitDescBefore_iff f a b).mp hab with h | ⟨h, _⟩
    · exact h.le
    · exact h.ge
  exact List.Pairwise.sublist (List.take_sublist _ _) hs2

/-- C5: an entry reported for an in-range masked position carries the
caller's original (unadjusted) position and exactly k ranked candidates
(k = 5 for `predict_tokens`, k = 3 for `predict_context`), each probability
being the softmax of that position's logits over the vocabulary at the
candidate's id, lying in `[0, 1]`, in descending probability order. -/
theorem prediction_entries_ranked :
    (∀ (t : MLMTok) (m : MLMModel) (tokens : List String)
        (token_ids : List Nat) (preds : Nat → Nat → ℝ) (nSpecial : Nat)
        (pos : Int) (entry : PredEntry), 5 ≤ m.vocabSize →
        entryFor t m tokens token_ids preds nSpecial pos = .ok (some entry) →
        entry.position = pos ∧ entry.predictions.length = 5 ∧
        (∀ c ∈ entry.predictions,
          c.probability =
            softmaxAt (preds (pos + 1).toNat) m.vocabSize c.token_id ∧
          0 ≤ c.probability ∧ c.probability ≤ 1) ∧
        entry.predictions.Pairwise fun c d => d.probability ≤ c.probability) ∧
    (∀ (t : MLMTok) (m : MLMModel) (tokens : List String)
        (L : Nat → Nat → ℝ) (pos : Int) (entry : PCEntry),
        3 ≤ m.vocabSize →
        contextEntryFor t m tokens
          (fun p idx => softmaxAt (L p) m.vocabSize idx) pos = some entry →
        entry.position = pos ∧ entry.predictions.length = 3 ∧
        (∀ c ∈ entry.predictions,
          c.probability =
            softmaxAt (L (pos + 1).toNat) m.vocabSize c.token_id ∧
          0 ≤ c.probability ∧ c.probability ≤ 1) ∧
        entry.predictions.Pairwise fun c d => d.probability ≤ c.probability)
    := by
  constructor
  · intro t m tokens token_ids preds nSpecial pos entry h5 h
    simp only [entryFor] at h
    split at h
    · cases hg1 : pyGet token_ids pos with
      | none => simp [hg1] at h
      | some otid =>
        simp only [hg1] at h
        cases hg2 : pyGet tokens pos with
        | none => simp [hg2] at h
        | some otok =>
          simp only [hg2, Except.ok.injEq, Option.some.injEq] at h
          subst h
          refine ⟨rfl, ?_, ?_, ?_⟩
          · simp only [List.length_map]
            exact topkIndices_length _ h5
          · intro c hc
            rw [List.mem_map] at hc
            obtain ⟨idx, hidx, rfl⟩ := hc
            exact ⟨rfl, softmaxAt_nonneg _ _ _,
              softmaxAt_le_one _ (topkIndices_lt _ _ _ idx hidx)⟩
          · rw [List.pairwise_map]
            refine (topkIndices_sorted _ _ _).imp ?_
            intro a b hab
            exact softmaxAt_mono _ _ hab
    · simp at h
  · intro t m tokens L pos entry h3 h
    simp only [contextEntryFor] at h
    split at h
    · simp only [Option.some.injEq] at h
      subst h
      refine ⟨rfl, ?_, ?_, ?_⟩
      · simp only [List.length_map]
        exact topkIndices_length _ h3
      · intro c hc
        rw [List.mem_map] at hc
        obtain ⟨idx, hidx, rfl⟩ := hc
        exact ⟨rfl, softmaxAt_nonneg _ _ _,
          softmaxAt_le_one _ (topkIndices_lt _ _ _ idx hidx)⟩
      · rw [List.pairwise_map]
        refine (topkIndices_sorted _ _ _).imp ?_
        intro a b hab
        exact hab
    · simp at h

/-- Witness for C5 at concrete inputs for both endpoints' entry builders. -/
theorem prediction_entries_ranked_witness :
    entryFor cMLMTok cModel ["Click"] [5] (fun _ _ => 0) 3 0 =
        .ok (some cEntry) ∧
    cEntry.predictions.length = 5 ∧
    contextEntryFor cMLMTok cModel ["a", "b", "c"]
        (fun p idx => softmaxAt ((fun _ _ => (0 : ℝ)) p) cModel.vocabSize idx)
        0 = some cCtxEntry ∧
    cCtxEntry.predictions.length = 3 := by
  have h1 : entryFor cMLMTok cModel ["Click"] [5] (fun _ _ => 0) 3 0 =
      .ok (some cEntry) := by
    simp [entryFor, pyGet, cMLMTok, cModel, cEntry]
  have h2 : contextEntryFor cMLMTok cModel ["a", "b", "c"]
      (fun p idx => softmaxAt ((fun _ _ => (0 : ℝ)) p) cModel.vocabSize idx)
      0 = some cCtxEntry := by
    simp [contextEntryFor, cMLMTok, cModel, cCtxEntry]
  exact ⟨h1,
    (prediction_entries_ranked.1 cMLMTok cModel ["Click"] [5] (fun _ _ => 0)
      3 0 cEntry (by norm_num [cModel]) h1).2.1,
    h2,
    (prediction_entries_ranked.2 cMLMTok cModel ["a", "b", "c"]
      (fun _ _ => 0) 0 cCtxEntry (by norm_num [cModel]) h2).2.1⟩

/-- C8: the language selector returns the fallback key outright on any text
shorter than 3 characters, bypassing detection (modelled from the spec:
the selector's code is not among the provided sources). -/
theorem select_short_text_fallback (detect : String → Option String)
    (registry : List String) (fallback : String) (text : String)
    (h : text.length < 3) :
    select detect registry fallback text = fallback := by
  simp [select, h]

/-- Witness for C8 at `""` and `"a"`, with a detector that would answer a
registered language. -/
theorem select_short_text_fallback_witness :
    select (fun _ => some "es") ["en", "es"] "default" "" = "default" ∧
    select (fun _ => some "es") ["en", "es"] "default" "a" = "default" :=
  ⟨select_short_text_fallback _ _ _ _ (by decide),
   select_short_text_fallback _ _ _ _ (by decide)⟩

end ChromaTokenizer
